import Mathlib

/-!
Verification of the filter-wheel fleet manager of the
`sensor-testing-control-server` repository.

The development shallowly embeds the two core source files:

* `src/labserver/devices/thorlabs_fw.py` — the `FilterWheel` class
  (validation, connection state, bounded motion);
* `src/labserver/devices/filter_rack.py` — the `FilterRack` class
  (index construction, nearest-match selection, the cross-wheel
  clearing pass, introspection, teardown).

Modelling conventions:

* Python floats are modelled as `ℚ`.
* Python dicts are modelled as insertion-ordered association lists
  (`List (key × value)`); assignment to an existing key overwrites the
  value in place, assignment to a fresh key appends (`dictInsert`),
  matching CPython dict semantics.
* Python exceptions are modelled by the `Except PyErr` monad;
  the distinct exception classes raised by the code
  (`ThorlabsError`, `ValueError`, `KeyError`, `TimeoutError`,
  `IndexError`) become constructors of `PyErr` (messages elided).
* Each wheel's hardware is modelled by a `WheelDev` record: the
  connection state, the confirmed device position, and a fault mode
  describing how the (external) device responds to commands:
  `none` — commands succeed and the wheel reaches the commanded slot
  within the polling deadline; `setFail` — the raw position-set command
  returns a negative status code (a `ThorlabsError`); `stuck` — the set
  command is accepted but the wheel never reports the target position,
  so a blocking move times out.  Real-time polling intervals and
  deadlines are abstracted away: only the terminal outcome is kept.
* String helpers (`upper`, `split`, `strip`, float parsing) are
  re-implemented structurally over `List Char` so that all definitions
  evaluate inside the kernel; `pyFloat?` models the plain decimal
  fragment of Python's `float()` (optional sign, digits, one dot; no
  exponents, underscores, infinities or NaN), which is the fragment
  exercised by the configuration values in this repository.
-/

/-! ## Python-style string helpers -/

/-- ASCII upper-casing of one character, as `str.upper` acts on the
ASCII range (all names in this repository are ASCII). -/
def asciiUpper (c : Char) : Char :=
  if 'a' ≤ c ∧ c ≤ 'z' then Char.ofNat (c.toNat - 32) else c

/-- `str.upper()` for ASCII strings. -/
def pyUpper (s : String) : String := ⟨s.data.map asciiUpper⟩

/-- Helper for `pySplitWs`: accumulate the current token (reversed). -/
def splitWsAux : List Char → List Char → List (List Char)
  | [], acc => if acc.isEmpty then [] else [acc.reverse]
  | c :: cs, acc =>
    if c.isWhitespace then
      if acc.isEmpty then splitWsAux cs [] else acc.reverse :: splitWsAux cs []
    else splitWsAux cs (c :: acc)

/-- `str.split()` with no argument: split on runs of whitespace,
dropping empty tokens. -/
def pySplitWs (s : String) : List (List Char) := splitWsAux s.data []

/-- The last whitespace-separated token of a string
(`name.split()[-1]`); `none` when there is no token, in which case
Python raises `IndexError`. -/
def lastToken (s : String) : Option (List Char) := (pySplitWs s).getLast?

/-- Numeric value of a digit list read in base 10. -/
def digitsToNat (l : List Char) : ℕ := l.foldl (fun a c => a * 10 + (c.toNat - 48)) 0

/-- The decimal fragment of Python `float(str)`: strip whitespace,
optional sign, then `digits`, `digits.digits`, `digits.` or `.digits`.
Returns `none` exactly when Python's `float()` would raise
`ValueError` on such inputs (anything containing other characters,
interior spaces, or no digits at all). -/
def pyFloatChars? (cs : List Char) : Option ℚ :=
  let cs := ((cs.dropWhile Char.isWhitespace).reverse.dropWhile Char.isWhitespace).reverse
  let (sgn, cs) : ℚ × List Char :=
    match cs with
    | '+' :: r => (1, r)
    | '-' :: r => (-1, r)
    | r => (1, r)
  let intPart := cs.takeWhile Char.isDigit
  let rest := cs.dropWhile Char.isDigit
  if intPart.all Char.isDigit ∧ rest = [] then
    if intPart.isEmpty then none else some (sgn * digitsToNat intPart)
  else
    match rest with
    | '.' :: frac =>
      if frac.all Char.isDigit ∧ ¬(intPart.isEmpty ∧ frac.isEmpty) then
        some (sgn * ((digitsToNat intPart : ℚ) + (digitsToNat frac : ℚ) / 10 ^ frac.length))
      else none
    | _ => none

/-- Python `float(str)` on a `String`. -/
def pyFloat? (s : String) : Option ℚ := pyFloatChars? s.data

/-! ## Python dict operations (insertion-ordered association lists) -/

/-- Dict lookup: value at the first (unique) occurrence of the key. -/
def dictGet? {α β : Type} [DecidableEq α] (d : List (α × β)) (k : α) : Option β :=
  (d.find? (fun p => decide (p.1 = k))).map (·.2)

/-- Dict assignment `d[k] = v`: overwrite in place when the key is
present (keeping its insertion position), append otherwise. -/
def dictInsert {α β : Type} [DecidableEq α] (d : List (α × β)) (k : α) (v : β) :
    List (α × β) :=
  if d.any (fun p => decide (p.1 = k)) then
    d.map (fun p => if p.1 = k then (k, v) else p)
  else d ++ [(k, v)]

/-! ## Exceptions and the wheel data model -/

/-- The exception classes raised by `thorlabs_fw.py` / `filter_rack.py`
(messages elided). `thorlabs` is `ThorlabsError(RuntimeError)`; the
others are the Python builtins, none of which is a subclass of
`ThorlabsError`. -/
inductive PyErr : Type
  | thorlabs
  | valueError
  | keyError
  | timeoutError
  | indexError
deriving DecidableEq, Repr

/-- How the external device responds to motion commands; see the header
comment. -/
inductive Fault : Type
  | setFail
  | stuck
deriving DecidableEq, Repr

/-- Dynamic state of one wheel's hardware connection:
`connected` is the result of `is_connected()` (handle present and the
liveness probe succeeds), `pos` the confirmed device position, `fault`
the device's response mode. -/
structure WheelDev : Type where
  connected : Bool
  pos : ℕ
  fault : Option Fault
deriving DecidableEq, Repr

/-- Static configuration of a `FilterWheel` (from `FilterWheel.__init__`):
serial, slot count, classification tag, and the slot → filter-name dict
(already run through `{int(k): (v or "EMPTY") ...}`). -/
structure FilterWheel : Type where
  serial : String
  slots : ℕ := 6
  wtype : String := "unknown"
  filters : List (ℕ × String) := []
deriving DecidableEq, Repr

/-- Result of a `move_to` call: the outcome, the wheel's device state
afterwards, and the list of raw position-set commands issued. -/
structure MoveRes : Type where
  out : Except PyErr Unit
  dev : WheelDev
  cmds : List ℤ
deriving Repr

/-- `FilterWheel.move_to(slot, block=block, timeout=timeout)`:

1. `slot < 0 or slot > self.slots` → `ValueError`, nothing issued;
2. not connected → `ThorlabsError`, nothing issued;
3. issue `set_position_raw`; a `setFail` fault raises `ThorlabsError`;
4. `block=False` → return immediately (fire-and-forget);
5. blocking: poll until the device reports the slot; a `stuck` device
   never does, so the deadline (`timeout or self.timeout_s`) elapses and
   `TimeoutError` is raised.  The `timeout` argument only scales the
   real-time deadline and is unobservable in this model. -/
def moveTo (w : FilterWheel) (d : WheelDev) (slot : ℤ) (block : Bool)
    (timeout : Option ℚ) : MoveRes :=
  if slot < 0 ∨ (w.slots : ℤ) < slot then ⟨.error .valueError, d, []⟩
  else if ¬ d.connected then ⟨.error .thorlabs, d, []⟩
  else
    match d.fault, block, timeout with
    | some .setFail, _, _ => ⟨.error .thorlabs, d, [slot]⟩
    | some .stuck, true, _ => ⟨.error .timeoutError, d, [slot]⟩
    | some .stuck, false, _ => ⟨.ok (), d, [slot]⟩
    | none, _, _ => ⟨.ok (), { d with pos := slot.toNat }, [slot]⟩

/-- `FilterWheel.disconnect()`: best-effort close, clear the handle;
physical position and device fault mode are untouched. -/
def disconnectDev (d : WheelDev) : WheelDev :=
  if d.connected then { d with connected := false } else d

/-- The structure returned by `FilterWheel.status()`. -/
structure WheelStatus : Type where
  serial : String
  connected : Bool
  position : Option ℕ
  currentFilter : Option String
  wtype : String
deriving DecidableEq, Repr

/-- `FilterWheel.status()`:
`pos = self.get_position() if self.is_connected() else None`, and
`current_filter = self.filters.get(pos, "UNKNOWN") if pos else None` —
note the truthiness test: `pos` equal to `0` takes the `else None`
branch exactly like `pos is None`. -/
def wheelStatus (w : FilterWheel) (d : WheelDev) : WheelStatus :=
  let pos : Option ℕ := if d.connected then some d.pos else none
  { serial := w.serial
    connected := d.connected
    position := pos
    currentFilter :=
      match pos with
      | some p => if p ≠ 0 then some ((dictGet? w.filters p).getD "UNKNOWN") else none
      | none => none
    wtype := w.wtype }

/-! ## C7: out-of-range `move_to` always fails and issues nothing -/

/-- C7: for every slot argument outside `[0, slots]`, `move_to` raises
`ValueError` and issues no device command — the device state is
untouched — regardless of connection state, block flag, or timeout. -/
theorem move_to_out_of_range (w : FilterWheel) (d : WheelDev) (slot : ℤ)
    (block : Bool) (timeout : Option ℚ)
    (h : slot < 0 ∨ (w.slots : ℤ) < slot) :
    moveTo w d slot block timeout = ⟨.error .valueError, d, []⟩ := by
  unfold moveTo
  rw [if_pos h]

/-- Witness for C7 at a concrete input: slot 7 on a 6-slot connected
wheel. -/
theorem move_to_out_of_range_witness :
    ((7 : ℤ) < 0 ∨ ((FilterWheel.mk "SN1" 6 "bandpass" []).slots : ℤ) < 7) ∧
      moveTo (FilterWheel.mk "SN1" 6 "bandpass" []) ⟨true, 1, none⟩ 7 true none
        = ⟨.error .valueError, ⟨true, 1, none⟩, []⟩ :=
  ⟨by decide, move_to_out_of_range _ _ _ _ _ (by decide)⟩

/-! ## Nearest-match selection (`FilterRack._nearest_bp`, `select_nd`) -/

/-- An index entry value `(wheel-key, slot, filter-name)`. -/
abbrev Triple := String × ℕ × String

/-- Python string `<`: strict lexicographic comparison of the code
points. -/
def charsLt : List Char → List Char → Bool
  | _, [] => false
  | [], _ :: _ => true
  | a :: as, b :: bs => decide (a < b) || (decide (a = b) && charsLt as bs)

/-- Python tuple `<` on `(wheel-key, slot, name)` triples:
lexicographic, strings by code points. -/
def tripleLt (x y : Triple) : Bool :=
  charsLt x.1.data y.1.data ||
    (decide (x.1 = y.1) &&
      (decide (x.2.1 < y.2.1) ||
        (decide (x.2.1 = y.2.1) && charsLt x.2.2.data y.2.2.data)))

/-- Python tuple `<` on `(distance, triple)` pairs, as compared by the
key-less `min(cands, ...)` in `_nearest_bp`. -/
def pairLt (x y : ℚ × Triple) : Bool :=
  decide (x.1 < y.1) || (decide (x.1 = y.1) && tripleLt x.2 y.2)

/-- Python `min` over `(distance, triple)` tuples (no `key=`): scan
left to right, replacing the current best only when the new element is
strictly smaller under tuple comparison. -/
def pyMinPair : List (ℚ × Triple) → Option (ℚ × Triple)
  | [] => none
  | x :: xs => some (xs.foldl (fun m y => if pairLt y m then y else m) x)

/-- Python `min(cands, key=lambda t: t[0])`: scan left to right,
replacing the current best only when the new element's first component
is strictly smaller — on ties the first-encountered element is kept. -/
def pyMinKeyFst : List (ℚ × Triple) → Option (ℚ × Triple)
  | [] => none
  | x :: xs => some (xs.foldl (fun m y => if y.1 < m.1 then y else m) x)

/-- The candidate comprehension shared verbatim by `_nearest_bp` and
`select_nd`:
`[(abs(target - key), triple) for key, triple in index.items() if abs(target - key) <= tol]`. -/
def distCands (idx : List (ℚ × Triple)) (t tol : ℚ) : List (ℚ × Triple) :=
  idx.filterMap (fun p => if |t - p.1| ≤ tol then some (|t - p.1|, p.2) else none)

/-- `FilterRack._nearest_bp(target_nm, tol_nm)`:
`min(cands, default=(None, None))[1]` — key-less `min` over
`(distance, triple)` tuples, `None` when no candidate is in
tolerance. -/
def nearestBp (idx : List (ℚ × Triple)) (t tol : ℚ) : Option Triple :=
  (pyMinPair (distCands idx t tol)).map (·.2)

/-- Modelled from the spec: "Ties are broken by the iteration order of
the index container (first-encountered wins)" — the first candidate (in
index order) whose distance is minimal among all within-tolerance
candidates.  Used only to compare the code's tie-break against the
spec's words. -/
def firstMinWithin (idx : List (ℚ × Triple)) (t tol : ℚ) : Option Triple :=
  ((distCands idx t tol).find?
    (fun x => (distCands idx t tol).all (fun y => decide (x.1 ≤ y.1)))).map (·.2)

/-! ## Index construction (`FilterRack._build_indices`) -/

/-- Per-filter metadata entry (`{type, wavelength?}`). -/
structure FilterMeta : Type where
  ftype : Option String := none
  wavelength : Option ℚ := none
deriving DecidableEq, Repr

/-- The two lookup tables built at rack construction. -/
structure Indices : Type where
  wl : List (ℚ × Triple) := []
  nd : List (ℚ × Triple) := []
deriving DecidableEq, Repr

/-- `f_type = f_meta.get("type", ND if wheel.type == ND else BP)`. -/
def classifyF (meta : List (String × FilterMeta)) (wtype : String)
    (name : String) : String :=
  (((dictGet? meta name).getD {}).ftype).getD (if wtype = "nd" then "nd" else "bandpass")

/-- One slot of the `_build_indices` inner loop: skip `EMPTY`, classify
via metadata (falling back to the wheel's own type), insert band-pass
filters with known wavelength into the wavelength index, insert ND
filters whose name's last token parses as a float into the OD index
(an unparseable token is a caught `ValueError` — the slot is skipped);
`name.split()[-1]` on a token-less (all-whitespace) name raises
`IndexError`. -/
def buildStep (meta : List (String × FilterMeta)) (wkey : String) (wtype : String)
    (idx : Indices) (slot : ℕ) (name : String) : Except PyErr Indices :=
  if pyUpper name = "EMPTY" then .ok idx
  else if classifyF meta wtype name = "bandpass" then
    match ((dictGet? meta name).getD {}).wavelength with
    | some wlv => .ok { idx with wl := dictInsert idx.wl wlv (wkey, slot, name) }
    | none => .ok idx
  else if classifyF meta wtype name = "nd" then
    match lastToken name with
    | none => .error .indexError
    | some tok =>
      match pyFloatChars? tok with
      | some od => .ok { idx with nd := dictInsert idx.nd od (wkey, slot, name) }
      | none => .ok idx
  else .ok idx

/-- The `for slot, raw_name in wheel.filters.items()` loop of
`_build_indices` over one wheel. -/
def processSlots (meta : List (String × FilterMeta)) (wkey : String) (wtype : String) :
    List (ℕ × String) → Indices → Except PyErr Indices
  | [], idx => .ok idx
  | (slot, name) :: rest, idx =>
    match buildStep meta wkey wtype idx slot name with
    | .ok idx' => processSlots meta wkey wtype rest idx'
    | .error e => .error e

/-- `FilterRack._build_indices`: for every **connected** wheel, process
its slots in dict order. -/
def buildIndices (meta : List (String × FilterMeta)) (dev : String → WheelDev) :
    List (String × FilterWheel) → Indices → Except PyErr Indices
  | [], idx => .ok idx
  | (k, w) :: rest, idx =>
    if ¬ (dev k).connected then buildIndices meta dev rest idx
    else
      match processSlots meta k w.wtype w.filters idx with
      | .ok idx' => buildIndices meta dev rest idx'
      | .error e => .error e

/-- The static part of a `FilterRack`: everything `__init__` stores and
never reassigns (`wheels`, `meta`, the online/offline snapshot lists and
the two indices). -/
structure FilterRack : Type where
  wheels : List (String × FilterWheel)
  fmeta : List (String × FilterMeta)
  offline : List String
  online : List String
  wlIndex : List (ℚ × Triple)
  ndIndex : List (ℚ × Triple)
deriving DecidableEq, Repr

/-- A rack together with the current per-wheel device state (the
dynamic part: connection handles and physical positions, keyed by
wheel-key). -/
structure RackState : Type where
  rack : FilterRack
  dev : String → WheelDev

/-- Pointwise update of the device map at one wheel-key. -/
def setDev (dv : String → WheelDev) (k : String) (d : WheelDev) : String → WheelDev :=
  fun k' => if k' = k then d else dv k'

/-- `self.offline = [k for k, w in wheels.items() if not w.is_connected()]`. -/
def offlineOf (dev : String → WheelDev) (ws : List (String × FilterWheel)) : List String :=
  ws.filterMap (fun p => if ¬ (dev p.1).connected then some p.1 else none)

/-- `self.online = [k for k in wheels if k not in self.offline]`. -/
def onlineOf (dev : String → WheelDev) (ws : List (String × FilterWheel)) : List String :=
  (ws.map Prod.fst).filter (fun k => !((offlineOf dev ws).contains k))

/-- `FilterRack.__init__(wheels, meta)`: record the offline/online
snapshot from each wheel's `is_connected()` at this instant, then run
`_build_indices` (which can raise, propagated to the caller). -/
def mkFilterRack? (ws : List (String × FilterWheel)) (meta : List (String × FilterMeta))
    (dev : String → WheelDev) : Except PyErr FilterRack :=
  match buildIndices meta dev ws {} with
  | .ok idx => .ok ⟨ws, meta, offlineOf dev ws, onlineOf dev ws, idx.wl, idx.nd⟩
  | .error e => .error e

/-! ## Selection operations (`select_bandpass`, `select_nd`) -/

/-- First `EMPTY` slot of a wheel, in `filters` dict order
(the `for s, n in w.filters.items(): ... break` loop). -/
def firstEmptySlot (w : FilterWheel) : Option ℕ :=
  (w.filters.find? (fun p => decide (pyUpper p.2 = "EMPTY"))).map (·.1)

/-- The `empty` dict of `select_bandpass`: first `EMPTY` slot for every
connected non-ND wheel (wheels with no `EMPTY` slot get no entry). -/
def firstEmptyMap (s : RackState) : List (String × ℕ) :=
  s.rack.wheels.foldl (fun em p =>
    if p.2.wtype = "nd" ∨ ¬ (s.dev p.1).connected then em
    else
      match firstEmptySlot p.2 with
      | some e => dictInsert em p.1 e
      | none => em) []

/-- The slot expression `tgt_slot if k == tgt_key else empty[k]`:
`empty[k]` on a missing key raises `KeyError`. -/
def clearTarget (tgtKey : String) (tgtSlot : ℕ) (em : List (String × ℕ))
    (k : String) : Except PyErr ℤ :=
  if k = tgtKey then .ok tgtSlot
  else
    match dictGet? em k with
    | some e => .ok (e : ℤ)
    | none => .error .keyError

/-- The cross-wheel move loop of `select_bandpass`: every connected
non-ND wheel is commanded (target wheel to the filter slot, every other
wheel to its first `EMPTY` slot); `except ThorlabsError` turns a
`ThorlabsError` into a warning and moves on, while every other
exception (`KeyError` from `empty[k]`, `ValueError`, `TimeoutError`)
propagates, aborting the remainder of the loop. -/
def clearPass (tgtKey : String) (tgtSlot : ℕ) (em : List (String × ℕ)) (block : Bool) :
    List (String × FilterWheel) → RackState → Except PyErr Unit × RackState
  | [], s => (.ok (), s)
  | (k, w) :: rest, s =>
    if ¬ (s.dev k).connected ∨ w.wtype = "nd" then
      clearPass tgtKey tgtSlot em block rest s
    else
      match clearTarget tgtKey tgtSlot em k with
      | .error e => (.error e, s)
      | .ok t =>
        let r := moveTo w (s.dev k) t block none
        let s' : RackState := ⟨s.rack, setDev s.dev k r.dev⟩
        match r.out with
        | .ok _ => clearPass tgtKey tgtSlot em block rest s'
        | .error .thorlabs => clearPass tgtKey tgtSlot em block rest s'
        | .error e => (.error e, s')

/-- `FilterRack.select_bandpass(wl_nm, tol_nm=tol, block=block)`. -/
def selectBandpass (s : RackState) (wl tol : ℚ) (block : Bool) :
    Except PyErr Unit × RackState :=
  match nearestBp s.rack.wlIndex wl tol with
  | none => (.error .keyError, s)
  | some (tgtKey, tgtSlot, _) =>
    clearPass tgtKey tgtSlot (firstEmptyMap s) block s.rack.wheels s

/-- The `od` argument of `select_nd`: a float or a string. -/
inductive PyVal : Type
  | num (q : ℚ)
  | str (s : String)

/-- `od_val = float(od) if isinstance(od, str) else od`, re-raised as
`ValueError("od must be numeric or like 'ND 0.5'")` when `float()`
fails.  Note: `float()` is applied to the **whole** string. -/
def parseOd : PyVal → Except PyErr ℚ
  | .num q => .ok q
  | .str s =>
    match pyFloat? s with
    | some q => .ok q
    | none => .error .valueError

/-- `FilterRack.select_nd(od, tol=tol, block=block)`: parse, collect
candidates, `KeyError` when none, `min(..., key=lambda t: t[0])`, then
a single `move_to` on the matching wheel (errors propagate). -/
def selectNd (s : RackState) (od : PyVal) (tol : ℚ) (block : Bool) :
    Except PyErr Unit × RackState :=
  match parseOd od with
  | .error e => (.error e, s)
  | .ok odv =>
    match pyMinKeyFst (distCands s.rack.ndIndex odv tol) with
    | none => (.error .keyError, s)
    | some (_, wkey, slot, _) =>
      match dictGet? s.rack.wheels wkey with
      | none => (.error .keyError, s)
      | some w =>
        let r := moveTo w (s.dev wkey) (slot : ℤ) block none
        (r.out, ⟨s.rack, setDev s.dev wkey r.dev⟩)

/-! ## Introspection and teardown -/

/-- The inner loop shared by `available_filters` and the spec's live
variant: `out[str(name)] = (k, slot)` for every non-`EMPTY` slot of one
wheel. -/
def wheelCollect (k : String) (w : FilterWheel) (out : List (String × String × ℕ)) :
    List (String × String × ℕ) :=
  w.filters.foldl (fun out' p =>
    if pyUpper p.2 ≠ "EMPTY" then dictInsert out' p.2 (k, p.1) else out') out

/-- `FilterRack.available_filters()`: iterate the **construction-time**
`self.online` list and collect `out[name] = (k, slot)` for every
non-`EMPTY` slot.  (The `none` arm of the lookup is unreachable:
`online` is built from the keys of `wheels`.) -/
def availableFilters (s : RackState) : List (String × String × ℕ) :=
  s.rack.online.foldl (fun out k =>
    match dictGet? s.rack.wheels k with
    | none => out
    | some w => wheelCollect k w out) []

/-- Modelled from the spec: "`available_filters()` returns, for every
currently-online wheel, the mapping from filter name to (wheel-key,
slot) for every non-empty slot — a live re-scan at call time".  Same
collection but driven by each wheel's connectivity **now**.  Used only
to compare the code against the spec's words. -/
def availableFiltersLive (s : RackState) : List (String × String × ℕ) :=
  s.rack.wheels.foldl (fun out p =>
    if (s.dev p.1).connected then wheelCollect p.1 p.2 out else out) []

/-- `FilterRack.status()`: every wheel's `status()` keyed by wheel-key. -/
def rackStatus (s : RackState) : List (String × WheelStatus) :=
  s.rack.wheels.map (fun p => (p.1, wheelStatus p.2 (s.dev p.1)))

/-- `FilterRack.wheels_keys()`. -/
def wheelsKeys (s : RackState) : List String := s.rack.wheels.map Prod.fst

/-- `FilterRack.close()`: disconnect every wheel (best-effort, never
fails). -/
def closeRack (s : RackState) : RackState :=
  ⟨s.rack, s.rack.wheels.foldl (fun dv p => setDev dv p.1 (disconnectDev (dv p.1))) s.dev⟩

/-! ## Concrete fixtures used by the closed theorems below -/

/-- Band-pass wheel A: `{1: "450nm", 2: "EMPTY"}`. -/
def wBpA : FilterWheel := ⟨"SNA", 6, "bandpass", [(1, "450nm"), (2, "EMPTY")]⟩

/-- Band-pass wheel whose only `EMPTY` slot, 7, lies outside the valid
range `[0, 6]` (the slot map comes straight from the config file and is
never validated against `slots`). -/
def wBpB : FilterWheel := ⟨"SNB", 6, "bandpass", [(7, "EMPTY")]⟩

/-- Band-pass wheel C: `{1: "500nm", 2: "EMPTY"}`. -/
def wBpC : FilterWheel := ⟨"SNC", 6, "bandpass", [(1, "500nm"), (2, "EMPTY")]⟩

/-- ND wheel: `{1: "ND 0.5"}`. -/
def wNd : FilterWheel := ⟨"SND", 6, "nd", [(1, "ND 0.5")]⟩

/-- All wheels connected and healthy, each currently at position 3. -/
def devOn : String → WheelDev := fun _ => ⟨true, 3, none⟩

/-- All wheels disconnected. -/
def devOff : String → WheelDev := fun _ => ⟨false, 3, none⟩

/-- Filter metadata: the two band-pass filters with wavelengths. -/
def metaBp : List (String × FilterMeta) :=
  [("450nm", ⟨some "bandpass", some 450⟩), ("500nm", ⟨some "bandpass", some 500⟩)]

/-! ## C2: `select_nd` rejects the labels its own message promises -/

/-- The rack for the C2 scenario: the ND filter `"ND 0.5"` is indexed
at OD `0.5` (as `_build_indices` parses the name's last token). -/
def rackNd : FilterRack :=
  ⟨[("n", wNd)], [], [], ["n"], [], [(1/2, ("n", 1, "ND 0.5"))]⟩

/-- The C2 rack with its wheel connected and healthy. -/
def stNd : RackState := ⟨rackNd, devOn⟩

/-- C2 (code bug): the claim says `select_nd` accepts a label such as
`'ND 0.5'` whose last token is numeric.  The code applies `float()` to
the whole string, so `select_nd("ND 0.5")` raises the invalid-argument
error whose own message reads "od must be numeric or like 'ND 0.5'" —
even though the suffix `"0.5"` is numeric (and is exactly what
`_build_indices` itself parses), and the rack holds a matching filter
at OD `0.5`. -/
theorem select_nd_label_raises :
    parseOd (.str "ND 0.5") = .error .valueError
    ∧ lastToken "ND 0.5" = some ['0', '.', '5']
    ∧ pyFloat? "0.5" = some (1/2)
    ∧ dictGet? rackNd.ndIndex (1/2) = some ("n", 1, "ND 0.5")
    ∧ selectNd stNd (.str "ND 0.5") (1/20) true = (.error .valueError, stNd) :=
  ⟨by with_unfolding_all rfl,
   by with_unfolding_all rfl,
   by with_unfolding_all rfl,
   by with_unfolding_all rfl,
   by with_unfolding_all rfl⟩

/-! ## C6: `status()` loses the filter name at slot 0 -/

/-- A connected wheel sitting at slot 0, which holds a catalogued
filter. -/
def wSlot0 : FilterWheel := ⟨"SN0", 6, "bandpass", [(0, "450nm"), (1, "EMPTY")]⟩

/-- C6 (code bug): `status()` on a connected wheel at slot 0 reports
`position = 0` but `current_filter = None`, although slot 0 has the
catalog entry `"450nm"` (and 0 is a valid slot per `move_to`'s own
validation): the truthiness test `if pos` conflates position 0 with
`None`.  The claim says that whenever the wheel is connected the filter
name at the current slot (or an unknown marker) is returned. -/
theorem status_slot_zero_bug :
    (wheelStatus wSlot0 ⟨true, 0, none⟩).connected = true
    ∧ (wheelStatus wSlot0 ⟨true, 0, none⟩).position = some 0
    ∧ dictGet? wSlot0.filters 0 = some "450nm"
    ∧ (wheelStatus wSlot0 ⟨true, 0, none⟩).currentFilter = none := by
  refine ⟨rfl, rfl, ?_, ?_⟩ <;> with_unfolding_all rfl

/-! ## C1 counterexample: a non-Thorlabs error aborts the clearing pass -/

/-- Wheels for the C1 counterexample, in dict order `a, b, c`. -/
def wheelsAbort : List (String × FilterWheel) := [("a", wBpA), ("b", wBpB), ("c", wBpC)]

/-- The rack `FilterRack.__init__(wheelsAbort, metaBp)` builds when all
three wheels are connected. -/
def rackAbort : FilterRack :=
  ⟨wheelsAbort, metaBp, [], ["a", "b", "c"],
   [(450, ("a", 1, "450nm")), (500, ("c", 1, "500nm"))], []⟩

/-- The C1 counterexample state. -/
def stAbort : RackState := ⟨rackAbort, devOn⟩

/-- C1 counterexample: the claim says that for every error raised by a
single wheel's `move_to` the clearing pass still attempts the remaining
wheels and the call returns success.  Here `select_bandpass(450)` moves
wheel `a` to its target slot 1, then wheel `b`'s move raises
`ValueError` (its first `EMPTY` slot is 7, outside `[0, 6]`), which
`except ThorlabsError` does not catch: the call aborts with the error —
not success — and wheel `c` is never moved to its `EMPTY` slot 2 (it
stays at position 3). -/
theorem select_bandpass_abort_counterexample :
    mkFilterRack? wheelsAbort metaBp devOn = .ok rackAbort
    ∧ (selectBandpass stAbort 450 2 true).1 = .error .valueError
    ∧ ((selectBandpass stAbort 450 2 true).2.dev "a").pos = 1
    ∧ ((selectBandpass stAbort 450 2 true).2.dev "c").pos = 3
    ∧ firstEmptySlot wBpC = some 2 :=
  ⟨by with_unfolding_all rfl,
   by with_unfolding_all rfl,
   by with_unfolding_all rfl,
   by with_unfolding_all rfl,
   by with_unfolding_all rfl⟩

/-! ## C3 counterexample: `available_filters` is not a live re-scan -/

/-- A single band-pass wheel configured with one filter. -/
def wSolo : FilterWheel := ⟨"SNS", 6, "bandpass", [(1, "450nm")]⟩

/-- The rack built while `wSolo` was **disconnected**: the wheel lands
in `offline`, `online` is empty, no index entry is built. -/
def rackOffline : FilterRack := ⟨[("a", wSolo)], [], ["a"], [], [], []⟩

/-- C3 counterexample: the claim says `available_filters()` re-scans
connectivity at call time.  Construct the rack while the wheel is
offline, then reconnect the wheel (`devOn`): `available_filters` still
returns nothing, because it iterates the construction-time `online`
snapshot, while the live re-scan the spec describes would return the
wheel's filter. -/
theorem available_filters_not_live_counterexample :
    mkFilterRack? [("a", wSolo)] [] devOff = .ok rackOffline
    ∧ availableFilters ⟨rackOffline, devOn⟩ = []
    ∧ availableFiltersLive ⟨rackOffline, devOn⟩ = [("450nm", ("a", 1))]
    ∧ ([] : List (String × String × ℕ)) ≠ [("450nm", ("a", 1))] :=
  ⟨by with_unfolding_all rfl, by with_unfolding_all rfl,
   by with_unfolding_all rfl, by decide⟩

/-! ## C4 counterexample: the band-pass tie-break is not first-encountered -/

/-- A wavelength index with two entries, in insertion order: 450 nm on
wheel `b`, then 452 nm on wheel `a`.  A target of 451 nm is at distance
1 from both. -/
def idxTie : List (ℚ × Triple) := [(450, ("b", 1, "450nm-B")), (452, ("a", 2, "452nm-A"))]

/-- C4 counterexample: the claim says both selectors break distance
ties by index iteration order (first encountered wins).  For target
451 nm (tolerance 2) both entries are at distance 1; the
first-encountered minimal entry is `("b", 1, "450nm-B")`, but
`_nearest_bp` — a key-less Python `min` over `(distance, triple)`
tuples — compares the triples lexicographically on a tie and returns
`("a", 2, "452nm-A")`. -/
theorem nearest_bp_tie_counterexample :
    nearestBp idxTie 451 2 = some ("a", 2, "452nm-A")
    ∧ firstMinWithin idxTie 451 2 = some ("b", 1, "450nm-B")
    ∧ (some ("a", 2, "452nm-A") : Option Triple) ≠ some ("b", 1, "450nm-B") :=
  ⟨by with_unfolding_all rfl, by with_unfolding_all rfl, by decide⟩

/-! ## C9: unparseable ND names are silently skipped by the index build -/

/-- C9: a filter classified `nd` (not `EMPTY`) whose name's last
whitespace-separated token does not parse as a float contributes
nothing to either index, raises nothing, and the slot loop continues
with the remaining entries exactly as if the entry were absent. -/
theorem build_skips_unparseable_nd (meta : List (String × FilterMeta))
    (wkey wtype : String) (idx : Indices) (slot : ℕ) (name : String)
    (tok : List Char) (rest : List (ℕ × String))
    (hemp : pyUpper name ≠ "EMPTY")
    (hty : classifyF meta wtype name = "nd")
    (htok : lastToken name = some tok)
    (hparse : pyFloatChars? tok = none) :
    processSlots meta wkey wtype ((slot, name) :: rest) idx
      = processSlots meta wkey wtype rest idx := by
  have hnb : ("nd" : String) ≠ "bandpass" := by decide
  have hstep : buildStep meta wkey wtype idx slot name = .ok idx := by
    unfold buildStep
    rw [if_neg hemp, if_neg (fun h => hnb (hty.symm.trans h)), if_pos hty, htok]
    simp only [hparse]
  have e : processSlots meta wkey wtype ((slot, name) :: rest) idx
      = match buildStep meta wkey wtype idx slot name with
        | .ok idx' => processSlots meta wkey wtype rest idx'
        | .error e => .error e := rfl
  rw [e, hstep]

/-- Witness for C9: the ND-classified name `"ND half"` (last token
`"half"`, unparseable) is skipped and the build continues. -/
theorem build_skips_unparseable_nd_witness :
    pyUpper "ND half" ≠ "EMPTY"
    ∧ classifyF [] "nd" "ND half" = "nd"
    ∧ lastToken "ND half" = some ['h', 'a', 'l', 'f']
    ∧ pyFloatChars? ['h', 'a', 'l', 'f'] = none
    ∧ processSlots [] "w" "nd" [(3, "ND half")] {} = processSlots [] "w" "nd" [] {} :=
  ⟨by decide, by decide, by decide, by decide,
   build_skips_unparseable_nd [] "w" "nd" {} 3 "ND half" ['h', 'a', 'l', 'f'] []
     (by decide) (by decide) (by decide) (by decide)⟩

/-! ## Unfolding and frame lemmas for the clearing pass -/

theorem clearPass_nil (tk : String) (ts : ℕ) (em : List (String × ℕ)) (b : Bool)
    (s : RackState) : clearPass tk ts em b [] s = (.ok (), s) := rfl

/-- One unfolding of the clearing pass on a cons cell (pure
restatement of the definition, with the `let` bindings expanded). -/
theorem clearPass_cons (tk : String) (ts : ℕ) (em : List (String × ℕ)) (b : Bool)
    (k : String) (w : FilterWheel) (rest : List (String × FilterWheel)) (s : RackState) :
    clearPass tk ts em b ((k, w) :: rest) s =
      if ¬ (s.dev k).connected ∨ w.wtype = "nd" then clearPass tk ts em b rest s
      else
        match clearTarget tk ts em k with
        | .error e => (.error e, s)
        | .ok t =>
          match (moveTo w (s.dev k) t b none).out with
          | .ok _ =>
            clearPass tk ts em b rest ⟨s.rack, setDev s.dev k (moveTo w (s.dev k) t b none).dev⟩
          | .error .thorlabs =>
            clearPass tk ts em b rest ⟨s.rack, setDev s.dev k (moveTo w (s.dev k) t b none).dev⟩
          | .error e =>
            (.error e, ⟨s.rack, setDev s.dev k (moveTo w (s.dev k) t b none).dev⟩) := rfl

theorem clearPass_cons_skip (tk : String) (ts : ℕ) (em : List (String × ℕ)) (b : Bool)
    (k : String) (w : FilterWheel) (rest : List (String × FilterWheel)) (s : RackState)
    (h : ¬ (s.dev k).connected ∨ w.wtype = "nd") :
    clearPass tk ts em b ((k, w) :: rest) s = clearPass tk ts em b rest s := by
  rw [clearPass_cons, if_pos h]

theorem clearPass_cons_keyerr (tk : String) (ts : ℕ) (em : List (String × ℕ)) (b : Bool)
    (k : String) (w : FilterWheel) (rest : List (String × FilterWheel)) (s : RackState)
    (e : PyErr)
    (h : ¬ (¬ (s.dev k).connected ∨ w.wtype = "nd"))
    (ht : clearTarget tk ts em k = .error e) :
    clearPass tk ts em b ((k, w) :: rest) s = (.error e, s) := by
  rw [clearPass_cons, if_neg h, ht]

theorem clearPass_cons_move (tk : String) (ts : ℕ) (em : List (String × ℕ)) (b : Bool)
    (k : String) (w : FilterWheel) (rest : List (String × FilterWheel)) (s : RackState)
    (t : ℤ)
    (h : ¬ (¬ (s.dev k).connected ∨ w.wtype = "nd"))
    (ht : clearTarget tk ts em k = .ok t) :
    clearPass tk ts em b ((k, w) :: rest) s
      = match (moveTo w (s.dev k) t b none).out with
        | .ok _ =>
          clearPass tk ts em b rest ⟨s.rack, setDev s.dev k (moveTo w (s.dev k) t b none).dev⟩
        | .error .thorlabs =>
          clearPass tk ts em b rest ⟨s.rack, setDev s.dev k (moveTo w (s.dev k) t b none).dev⟩
        | .error e =>
          (.error e, ⟨s.rack, setDev s.dev k (moveTo w (s.dev k) t b none).dev⟩) := by
  rw [clearPass_cons, if_neg h, ht]

theorem clearPass_cons_continue (tk : String) (ts : ℕ) (em : List (String × ℕ)) (b : Bool)
    (k : String) (w : FilterWheel) (rest : List (String × FilterWheel)) (s : RackState)
    (t : ℤ)
    (h : ¬ (¬ (s.dev k).connected ∨ w.wtype = "nd"))
    (ht : clearTarget tk ts em k = .ok t)
    (hout : (moveTo w (s.dev k) t b none).out = .ok ()
      ∨ (moveTo w (s.dev k) t b none).out = .error .thorlabs) :
    clearPass tk ts em b ((k, w) :: rest) s
      = clearPass tk ts em b rest ⟨s.rack, setDev s.dev k (moveTo w (s.dev k) t b none).dev⟩ := by
  rw [clearPass_cons_move tk ts em b k w rest s t h ht]
  rcases hout with h1 | h1 <;> rw [h1]

theorem clearPass_cons_abort (tk : String) (ts : ℕ) (em : List (String × ℕ)) (b : Bool)
    (k : String) (w : FilterWheel) (rest : List (String × FilterWheel)) (s : RackState)
    (t : ℤ) (e : PyErr)
    (h : ¬ (¬ (s.dev k).connected ∨ w.wtype = "nd"))
    (ht : clearTarget tk ts em k = .ok t)
    (hout : (moveTo w (s.dev k) t b none).out = .error e)
    (hne : e ≠ .thorlabs) :
    clearPass tk ts em b ((k, w) :: rest) s
      = (.error e, ⟨s.rack, setDev s.dev k (moveTo w (s.dev k) t b none).dev⟩) := by
  rw [clearPass_cons_move tk ts em b k w rest s t h ht, hout]
  cases e with
  | thorlabs => exact absurd rfl hne
  | valueError => rfl
  | keyError => rfl
  | timeoutError => rfl
  | indexError => rfl

/-- `move_to` never changes a wheel's connection state or its device
fault mode: only the position register can change. -/
theorem moveTo_frame (w : FilterWheel) (d : WheelDev) (slot : ℤ) (b : Bool)
    (tmo : Option ℚ) :
    ((moveTo w d slot b tmo).dev).connected = d.connected
    ∧ ((moveTo w d slot b tmo).dev).fault = d.fault := by
  unfold moveTo
  split
  · exact ⟨rfl, rfl⟩
  split
  · exact ⟨rfl, rfl⟩
  split <;> exact ⟨rfl, rfl⟩

/-- The clearing pass preserves the rack's static part, every wheel's
connectivity and fault mode, and leaves the device state of every key
not listed in the pass untouched. -/
theorem clearPass_frame (tk : String) (ts : ℕ) (em : List (String × ℕ)) (b : Bool) :
    ∀ (ws : List (String × FilterWheel)) (s : RackState),
      (clearPass tk ts em b ws s).2.rack = s.rack
      ∧ (∀ k, ((clearPass tk ts em b ws s).2.dev k).connected = (s.dev k).connected
          ∧ ((clearPass tk ts em b ws s).2.dev k).fault = (s.dev k).fault)
      ∧ (∀ k, k ∉ ws.map Prod.fst → (clearPass tk ts em b ws s).2.dev k = s.dev k) := by
  intro ws
  induction ws with
  | nil => intro s; rw [clearPass_nil]; exact ⟨rfl, fun _ => ⟨rfl, rfl⟩, fun _ _ => rfl⟩
  | cons p rest ih =>
    intro s
    obtain ⟨k, w⟩ := p
    by_cases hc : ¬ (s.dev k).connected ∨ w.wtype = "nd"
    · rw [clearPass_cons_skip tk ts em b k w rest s hc]
      refine ⟨(ih s).1, (ih s).2.1, fun k' hk' => (ih s).2.2 k' ?_⟩
      simp only [List.map_cons, List.mem_cons] at hk'
      exact fun hm => hk' (.inr hm)
    · cases ht : clearTarget tk ts em k with
      | error e =>
        rw [clearPass_cons_keyerr tk ts em b k w rest s e hc ht]
        exact ⟨rfl, fun _ => ⟨rfl, rfl⟩, fun _ _ => rfl⟩
      | ok t =>
        have hmf := moveTo_frame w (s.dev k) t b none
        have hstep : ∀ (s' : RackState),
            s' = ⟨s.rack, setDev s.dev k (moveTo w (s.dev k) t b none).dev⟩ →
            (clearPass tk ts em b rest s').2.rack = s.rack
            ∧ (∀ k', ((clearPass tk ts em b rest s').2.dev k').connected
                  = (s.dev k').connected
                ∧ ((clearPass tk ts em b rest s').2.dev k').fault = (s.dev k').fault)
            ∧ (∀ k', k' ∉ (((k, w) :: rest).map Prod.fst) →
                (clearPass tk ts em b rest s').2.dev k' = s.dev k') := by
          intro s' hs'
          have hds' : ∀ k', (s'.dev k').connected = (s.dev k').connected
              ∧ (s'.dev k').fault = (s.dev k').fault := by
            intro k'
            rw [hs']
            simp only [setDev]
            by_cases hkk : k' = k
            · rw [if_pos hkk, hkk]; exact hmf
            · rw [if_neg hkk]; exact ⟨rfl, rfl⟩
          refine ⟨?_, fun k' => ?_, fun k' hk' => ?_⟩
          · rw [(ih s').1, hs']
          · exact ⟨((ih s').2.1 k').1.trans (hds' k').1,
              ((ih s').2.1 k').2.trans (hds' k').2⟩
          · simp only [List.map_cons, List.mem_cons, not_or] at hk'
            rw [(ih s').2.2 k' (by simpa using hk'.2), hs']
            simp only [setDev]
            rw [if_neg hk'.1]
        cases hout : (moveTo w (s.dev k) t b none).out with
        | ok u =>
          cases u
          rw [clearPass_cons_continue tk ts em b k w rest s t hc ht (.inl hout)]
          exact hstep _ rfl
        | error e =>
          by_cases he : e = .thorlabs
          · subst he
            rw [clearPass_cons_continue tk ts em b k w rest s t hc ht (.inr hout)]
            exact hstep _ rfl
          · rw [clearPass_cons_abort tk ts em b k w rest s t e hc ht hout he]
            refine ⟨rfl, fun k' => ?_, fun k' hk' => ?_⟩
            · simp only [setDev]
              by_cases hkk : k' = k
              · rw [if_pos hkk, hkk]; exact hmf
              · rw [if_neg hkk]; exact ⟨rfl, rfl⟩
            · simp only [List.map_cons, List.mem_cons, not_or] at hk'
              simp only [setDev]
              rw [if_neg hk'.1]

/-! ## C10: no public rack operation mutates the static part -/

/-- C10: after construction, neither selection operation nor `close`
ever changes the rack's static part — the wavelength index, the OD
index, the online/offline snapshot lists, the wheel configurations
(including every slot → filter map) and the metadata are all preserved;
only the device map (connection handles and physical positions)
changes.  `available_filters`, `status` and `wheels_keys` are embedded
as pure functions of the state (the Python methods contain no
assignment), so they cannot mutate anything by construction. -/
theorem rack_static_frame (s : RackState) (wl tol odtol : ℚ) (od : PyVal)
    (b b' : Bool) :
    (selectBandpass s wl tol b).2.rack = s.rack
    ∧ (selectNd s od odtol b').2.rack = s.rack
    ∧ (closeRack s).rack = s.rack := by
  refine ⟨?_, ?_, rfl⟩
  · unfold selectBandpass
    cases hm : nearestBp s.rack.wlIndex wl tol with
    | none => rfl
    | some tr =>
      obtain ⟨tk, ts, nm⟩ := tr
      exact (clearPass_frame tk ts (firstEmptyMap s) b s.rack.wheels s).1
  · cases hp : parseOd od with
    | error e => simp [selectNd, hp]
    | ok odv =>
      cases hm : pyMinKeyFst (distCands s.rack.ndIndex odv odtol) with
      | none => simp [selectNd, hp, hm]
      | some m =>
        obtain ⟨d, wk, sl, nm⟩ := m
        cases hw : dictGet? s.rack.wheels wk with
        | none => simp [selectNd, hp, hm, hw]
        | some w => simp [selectNd, hp, hm, hw]

/-! ## Minimality lemmas for the Python `min` folds -/

theorem pairLt_le {x y : ℚ × Triple} (h : pairLt x y) : x.1 ≤ y.1 := by
  unfold pairLt at h
  simp only [Bool.or_eq_true, decide_eq_true_eq, Bool.and_eq_true] at h
  rcases h with h | ⟨h, _⟩
  · exact le_of_lt h
  · exact le_of_eq h

theorem pairLt_false_le {x y : ℚ × Triple} (h : ¬ pairLt x y) : y.1 ≤ x.1 := by
  unfold pairLt at h
  simp only [Bool.or_eq_true, decide_eq_true_eq, Bool.and_eq_true, not_or, not_and] at h
  exact le_of_not_lt h.1

/-- The running minimum of a key-less Python `min` is the seed or one
of the scanned elements. -/
theorem foldlMinPair_mem (l : List (ℚ × Triple)) (init : ℚ × Triple) :
    l.foldl (fun m y => if pairLt y m then y else m) init = init
      ∨ l.foldl (fun m y => if pairLt y m then y else m) init ∈ l := by
  induction l generalizing init with
  | nil => exact .inl rfl
  | cons z l ih =>
    simp only [List.foldl_cons]
    rcases ih (if pairLt z init then z else init) with h | h
    · rw [h]
      by_cases hz : pairLt z init
      · rw [if_pos hz]; exact .inr (List.mem_cons_self z l)
      · rw [if_neg hz]; exact .inl rfl
    · exact .inr (List.mem_cons_of_mem z h)

/-- The running minimum's distance component is a lower bound for the
seed and every scanned element. -/
theorem foldlMinPair_le (l : List (ℚ × Triple)) (init : ℚ × Triple) :
    (l.foldl (fun m y => if pairLt y m then y else m) init).1 ≤ init.1
    ∧ ∀ y ∈ l, (l.foldl (fun m y => if pairLt y m then y else m) init).1 ≤ y.1 := by
  induction l generalizing init with
  | nil => exact ⟨le_refl _, fun y hy => absurd hy (List.not_mem_nil y)⟩
  | cons z l ih =>
    simp only [List.foldl_cons]
    have hstep : (if pairLt z init then z else init).1 ≤ init.1
        ∧ (if pairLt z init then z else init).1 ≤ z.1 := by
      by_cases hz : pairLt z init
      · rw [if_pos hz]; exact ⟨pairLt_le hz, le_refl _⟩
      · rw [if_neg hz]; exact ⟨le_refl _, pairLt_false_le hz⟩
    refine ⟨le_trans (ih _).1 hstep.1, fun y hy => ?_⟩
    rcases List.mem_cons.mp hy with rfl | hy
    · exact le_trans (ih _).1 hstep.2
    · exact (ih _).2 y hy

/-- Membership in the shared candidate comprehension. -/
theorem mem_distCands {idx : List (ℚ × Triple)} {t tol d : ℚ} {r : Triple} :
    (d, r) ∈ distCands idx t tol
      ↔ ∃ wl, (wl, r) ∈ idx ∧ d = |t - wl| ∧ |t - wl| ≤ tol := by
  unfold distCands
  rw [List.mem_filterMap]
  constructor
  · rintro ⟨⟨wl, r'⟩, hmem, hf⟩
    split at hf
    · rename_i hc
      rw [Option.some.injEq, Prod.mk.injEq] at hf
      obtain ⟨hd, hr⟩ := hf
      subst hr
      exact ⟨wl, hmem, hd.symm, hc⟩
    · exact absurd hf (by simp)
  · rintro ⟨wl, hmem, rfl, hc⟩
    exact ⟨(wl, r), hmem, by rw [if_pos hc]⟩

theorem distCands_eq_nil {idx : List (ℚ × Triple)} {t tol : ℚ} :
    distCands idx t tol = [] ↔ ∀ p ∈ idx, ¬ |t - p.1| ≤ tol := by
  unfold distCands
  rw [List.filterMap_eq_nil_iff]
  constructor
  · intro h p hp hc
    have := h p hp
    rw [if_pos hc] at this
    exact Option.noConfusion this
  · intro h p hp
    rw [if_neg (h p hp)]

theorem pyMinPair_nil : pyMinPair [] = none := rfl

/-- With tolerance `0` and a duplicate-free index, the candidate list
collapses to exactly the entry whose key is the target. -/
theorem distCands_zero {idx : List (ℚ × Triple)} {t : ℚ} {r : Triple}
    (hnd : (idx.map Prod.fst).Nodup) (hmem : (t, r) ∈ idx) :
    distCands idx t 0 = [(0, r)] := by
  have habs : ∀ w : ℚ, |t - w| ≤ 0 ↔ t = w := by
    intro w
    rw [abs_nonpos_iff, sub_eq_zero]
  induction idx with
  | nil => cases hmem
  | cons p rest ih =>
    obtain ⟨wl, r'⟩ := p
    rw [List.map_cons, List.nodup_cons] at hnd
    rcases List.mem_cons.mp hmem with heq | hmem'
    · injection heq with h1 h2
      subst h1; subst h2
      have hnil : distCands rest t 0 = [] := by
        rw [distCands_eq_nil]
        intro q hq hc
        have h1 : t = q.1 := (habs q.1).mp hc
        have h2 : q.1 ∈ rest.map Prod.fst := List.mem_map_of_mem Prod.fst hq
        rw [← h1] at h2
        exact hnd.1 h2
      unfold distCands at hnil ⊢
      rw [List.filterMap_cons, if_pos (le_of_eq (by rw [sub_self, abs_zero]))]
      rw [hnil, sub_self, abs_zero]
    · have hne : ¬ |t - wl| ≤ 0 := by
        intro hc
        have h1 : t = wl := (habs wl).mp hc
        have h2 : t ∈ rest.map Prod.fst := by
          have := List.mem_map_of_mem Prod.fst hmem'
          exact this
        rw [h1] at h2
        exact hnd.1 h2
      have htail := ih hnd.2 hmem'
      unfold distCands at htail ⊢
      rw [List.filterMap_cons, if_neg hne, htail]

/-! ## C5: within-tolerance collection and distance minimality -/

/-- C5: (i) whenever `_nearest_bp` returns an entry, that entry is an
index entry within the inclusive tolerance whose absolute distance to
the target is minimal among all within-tolerance index entries;
(ii) when it returns nothing, no index entry is within tolerance; and
(iii) for every filter indexed at wavelength `w` (index keys are unique
since the index is a dict), selection at target `w` with tolerance `0`
resolves to exactly that filter's `(wheel, slot, name)` triple. -/
theorem nearest_match_selection :
    (∀ (idx : List (ℚ × Triple)) (t tol : ℚ) (r : Triple),
        nearestBp idx t tol = some r →
          ∃ wl, (wl, r) ∈ idx ∧ |t - wl| ≤ tol
            ∧ ∀ wl' r', (wl', r') ∈ idx → |t - wl'| ≤ tol → |t - wl| ≤ |t - wl'|)
    ∧ (∀ (idx : List (ℚ × Triple)) (t tol : ℚ),
        nearestBp idx t tol = none → ∀ wl r, (wl, r) ∈ idx → ¬ |t - wl| ≤ tol)
    ∧ (∀ (idx : List (ℚ × Triple)) (w : ℚ) (r : Triple),
        (idx.map Prod.fst).Nodup → (w, r) ∈ idx → nearestBp idx w 0 = some r) := by
  refine ⟨?_, ?_, ?_⟩
  · intro idx t tol r hr
    unfold nearestBp at hr
    cases hc : distCands idx t tol with
    | nil => rw [hc] at hr; exact absurd hr (by simp [pyMinPair])
    | cons x xs =>
      rw [hc] at hr
      simp only [pyMinPair, Option.map_some'] at hr
      have hmemf := foldlMinPair_mem xs x
      have hlef := foldlMinPair_le xs x
      generalize hM : xs.foldl (fun m y => if pairLt y m then y else m) x = m at hr hmemf hlef
      obtain ⟨md, mr⟩ := m
      have hrr : mr = r := Option.some.inj hr
      subst hrr
      have hmem : (md, mr) ∈ distCands idx t tol := by
        rw [hc]
        rcases hmemf with h | h
        · rw [h]; exact List.mem_cons_self x xs
        · exact List.mem_cons_of_mem x h
      have hle : ∀ y ∈ distCands idx t tol, md ≤ y.1 := by
        intro y hy
        rw [hc] at hy
        rcases List.mem_cons.mp hy with rfl | hy
        · exact hlef.1
        · exact hlef.2 y hy
      obtain ⟨wl, hidx, hd, htol⟩ := mem_distCands.mp hmem
      refine ⟨wl, hidx, htol, fun wl' r' hmem' htol' => ?_⟩
      have hin : (|t - wl'|, r') ∈ distCands idx t tol :=
        mem_distCands.mpr ⟨wl', hmem', rfl, htol'⟩
      have := hle _ hin
      rw [← hd]; exact this
  · intro idx t tol hr wl r hmem hc
    unfold nearestBp at hr
    have hnil : distCands idx t tol = [] := by
      cases hcc : distCands idx t tol with
      | nil => rfl
      | cons x xs => rw [hcc] at hr; simp [pyMinPair] at hr
    have : (|t - wl|, r) ∈ distCands idx t tol :=
      mem_distCands.mpr ⟨wl, hmem, rfl, hc⟩
    rw [hnil] at this
    exact absurd this (List.not_mem_nil _)
  · intro idx w r hnd hmem
    unfold nearestBp
    rw [distCands_zero hnd hmem]
    rfl

/-- Witness for C5 at a concrete one-entry index. -/
theorem nearest_match_selection_witness :
    (([((450 : ℚ), (("a", 1, "450nm") : Triple))].map Prod.fst).Nodup
        ∧ ((450 : ℚ), (("a", 1, "450nm") : Triple)) ∈
            [((450 : ℚ), (("a", 1, "450nm") : Triple))])
    ∧ nearestBp [((450 : ℚ), (("a", 1, "450nm") : Triple))] 450 0 = some ("a", 1, "450nm") :=
  ⟨⟨by decide, by decide⟩,
   nearest_match_selection.2.2 [((450 : ℚ), (("a", 1, "450nm") : Triple))] 450
     ("a", 1, "450nm") (by decide) (by decide)⟩

/-! ## Strict-order lemmas for Python tuple comparison -/

theorem charsLt_irrefl : ∀ as : List Char, ¬ charsLt as as
  | [] => by decide
  | a :: as => by
    intro h
    simp only [charsLt, Bool.or_eq_true, decide_eq_true_eq, Bool.and_eq_true] at h
    rcases h with h | ⟨_, h⟩
    · exact lt_irrefl a h
    · exact charsLt_irrefl as h

theorem charsLt_trans : ∀ as bs cs : List Char,
    charsLt as bs → charsLt bs cs → charsLt as cs
  | _, bs, [], _, h2 => by cases bs <;> simp [charsLt] at h2
  | as, [], _ :: _, h1, _ => by cases as <;> simp [charsLt] at h1
  | [], _ :: _, _ :: _, _, _ => by simp [charsLt]
  | a :: as, b :: bs, c :: cs, h1, h2 => by
    simp only [charsLt, Bool.or_eq_true, decide_eq_true_eq, Bool.and_eq_true] at h1 h2 ⊢
    rcases h1 with h1 | ⟨e1, h1⟩ <;> rcases h2 with h2 | ⟨e2, h2⟩
    · exact .inl (lt_trans h1 h2)
    · exact .inl (by rw [← e2]; exact h1)
    · exact .inl (by rw [e1]; exact h2)
    · exact .inr ⟨e1.trans e2, charsLt_trans as bs cs h1 h2⟩

theorem tripleLt_irrefl (x : Triple) : ¬ tripleLt x x := by
  intro h
  simp only [tripleLt, Bool.or_eq_true, decide_eq_true_eq, Bool.and_eq_true] at h
  rcases h with h | ⟨_, h | ⟨_, h⟩⟩
  · exact charsLt_irrefl _ h
  · exact lt_irrefl _ h
  · exact charsLt_irrefl _ h

theorem tripleLt_trans {x y z : Triple} (h1 : tripleLt x y) (h2 : tripleLt y z) :
    tripleLt x z := by
  simp only [tripleLt, Bool.or_eq_true, decide_eq_true_eq, Bool.and_eq_true] at h1 h2 ⊢
  rcases h1 with h1 | ⟨e1, h1⟩ <;> rcases h2 with h2 | ⟨e2, h2⟩
  · exact .inl (charsLt_trans _ _ _ h1 h2)
  · exact .inl (by rw [← e2]; exact h1)
  · exact .inl (by rw [e1]; exact h2)
  · refine .inr ⟨e1.trans e2, ?_⟩
    rcases h1 with h1 | ⟨f1, h1⟩ <;> rcases h2 with h2 | ⟨f2, h2⟩
    · exact .inl (lt_trans h1 h2)
    · exact .inl (by rw [← f2]; exact h1)
    · exact .inl (by rw [f1]; exact h2)
    · exact .inr ⟨f1.trans f2, charsLt_trans _ _ _ h1 h2⟩

theorem pairLt_irrefl (x : ℚ × Triple) : ¬ pairLt x x := by
  intro h
  simp only [pairLt, Bool.or_eq_true, decide_eq_true_eq, Bool.and_eq_true] at h
  rcases h with h | ⟨_, h⟩
  · exact lt_irrefl _ h
  · exact tripleLt_irrefl _ h

theorem pairLt_trans {x y z : ℚ × Triple} (h1 : pairLt x y) (h2 : pairLt y z) :
    pairLt x z := by
  simp only [pairLt, Bool.or_eq_true, decide_eq_true_eq, Bool.and_eq_true] at h1 h2 ⊢
  rcases h1 with h1 | ⟨e1, h1⟩ <;> rcases h2 with h2 | ⟨e2, h2⟩
  · exact .inl (lt_trans h1 h2)
  · exact .inl (by rw [← e2]; exact h1)
  · exact .inl (by rw [e1]; exact h2)
  · exact .inr ⟨e1.trans e2, tripleLt_trans h1 h2⟩

/-- The running minimum of the key-less `min` either stays at the seed
or is strictly below it in the tuple order. -/
theorem foldlMinPair_lt_init (l : List (ℚ × Triple)) (init : ℚ × Triple) :
    l.foldl (fun m y => if pairLt y m then y else m) init = init
      ∨ pairLt (l.foldl (fun m y => if pairLt y m then y else m) init) init := by
  induction l generalizing init with
  | nil => exact .inl rfl
  | cons z l ih =>
    simp only [List.foldl_cons]
    by_cases hz : pairLt z init
    · rw [if_pos hz]
      rcases ih z with h | h
      · rw [h]; exact .inr hz
      · exact .inr (pairLt_trans h hz)
    · rw [if_neg hz]; exact ih init

/-- No scanned element (nor the seed) is strictly below the result of
the key-less `min` in the Python tuple order. -/
theorem foldlMinPair_not_lt (l : List (ℚ × Triple)) (init : ℚ × Triple) :
    ∀ y, (y = init ∨ y ∈ l) →
      ¬ pairLt y (l.foldl (fun m y => if pairLt y m then y else m) init) := by
  induction l generalizing init with
  | nil =>
    rintro y (rfl | hy)
    · exact pairLt_irrefl y
    · exact absurd hy (List.not_mem_nil y)
  | cons z l ih =>
    simp only [List.foldl_cons]
    rintro y (rfl | hy)
    · by_cases hz : pairLt z y
      · rw [if_pos hz]
        intro hlt
        rcases foldlMinPair_lt_init l z with h | h
        · rw [h] at hlt; exact pairLt_irrefl z (pairLt_trans hz hlt)
        · exact pairLt_irrefl z (pairLt_trans hz (pairLt_trans hlt h))
      · rw [if_neg hz]; exact ih y y (.inl rfl)
    · rcases List.mem_cons.mp hy with rfl | hy'
      · by_cases hz : pairLt y init
        · rw [if_pos hz]; exact ih y y (.inl rfl)
        · rw [if_neg hz]
          intro hlt
          rcases foldlMinPair_lt_init l init with h | h
          · rw [h] at hlt; exact hz hlt
          · exact hz (pairLt_trans hlt h)
      · by_cases hz : pairLt z init
        · rw [if_pos hz]; exact ih z y (.inr hy')
        · rw [if_neg hz]; exact ih init y (.inr hy')

/-- Full characterization of the keyed `min(cands, key=lambda t: t[0])`
fold: either the seed is already minimal (and is returned), or the
result occurs in the list, is strictly smaller than the seed and every
element before its occurrence, and no later element is smaller. -/
theorem foldlKeyFst_char (l : List (ℚ × Triple)) (init : ℚ × Triple) :
    (l.foldl (fun m y => if y.1 < m.1 then y else m) init = init
      ∧ ∀ y ∈ l, init.1 ≤ y.1)
    ∨ (∃ pre post,
        l = pre ++ (l.foldl (fun m y => if y.1 < m.1 then y else m) init) :: post
        ∧ (l.foldl (fun m y => if y.1 < m.1 then y else m) init).1 < init.1
        ∧ (∀ y ∈ pre, (l.foldl (fun m y => if y.1 < m.1 then y else m) init).1 < y.1)
        ∧ (∀ y ∈ post, (l.foldl (fun m y => if y.1 < m.1 then y else m) init).1 ≤ y.1)) := by
  induction l generalizing init with
  | nil => exact .inl ⟨rfl, by simp⟩
  | cons z l ih =>
    simp only [List.foldl_cons]
    by_cases hz : z.1 < init.1
    · rw [if_pos hz]
      rcases ih z with ⟨hR, hall⟩ | ⟨pre, post, heq, hlt, hpre, hpost⟩
      · refine .inr ⟨[], l, ?_, ?_, ?_, ?_⟩
        · rw [hR]; rfl
        · rw [hR]; exact hz
        · intro y hy; cases hy
        · intro y hy; rw [hR]; exact hall y hy
      · refine .inr ⟨z :: pre, post, ?_, lt_trans hlt hz, ?_, hpost⟩
        · rw [List.cons_append, ← heq]
        · intro y hy
          rcases List.mem_cons.mp hy with rfl | hy'
          · exact hlt
          · exact hpre y hy'
    · rw [if_neg hz]
      rcases ih init with ⟨hR, hall⟩ | ⟨pre, post, heq, hlt, hpre, hpost⟩
      · refine .inl ⟨hR, fun y hy => ?_⟩
        rcases List.mem_cons.mp hy with rfl | hy'
        · exact le_of_not_lt hz
        · exact hall y hy'
      · refine .inr ⟨z :: pre, post, ?_, hlt, ?_, hpost⟩
        · rw [List.cons_append, ← heq]
        · intro y hy
          rcases List.mem_cons.mp hy with rfl | hy'
          · exact lt_of_lt_of_le hlt (le_of_not_lt hz)
          · exact hpre y hy'

/-! ## C4 amended: the two tie-break rules actually implemented -/

/-- C4 amended: (i) `select_nd`'s `min(cands, key=lambda t: t[0])`
returns the **first-encountered** candidate of minimal distance: the
result occurs in the candidate list, no candidate is closer, and every
candidate strictly before its occurrence is strictly farther.
(ii) `_nearest_bp`'s key-less `min` returns a candidate that is minimal
in the full lexicographic order on `(distance, (wheel, slot, name))`
tuples — so a distance tie is broken by the smallest triple, not by
encounter order. -/
theorem tie_break_rules :
    (∀ (idx : List (ℚ × Triple)) (t tol : ℚ) (m : ℚ × Triple),
        pyMinKeyFst (distCands idx t tol) = some m →
          ∃ pre post, distCands idx t tol = pre ++ m :: post
            ∧ (∀ y ∈ pre, m.1 < y.1)
            ∧ (∀ y ∈ distCands idx t tol, m.1 ≤ y.1))
    ∧ (∀ (idx : List (ℚ × Triple)) (t tol : ℚ) (r : Triple),
        nearestBp idx t tol = some r →
          ∃ d, (d, r) ∈ distCands idx t tol
            ∧ ∀ y ∈ distCands idx t tol, ¬ pairLt y (d, r)) := by
  constructor
  · intro idx t tol m hm
    cases hc : distCands idx t tol with
    | nil => rw [hc] at hm; exact absurd hm (by simp [pyMinKeyFst])
    | cons x xs =>
      rw [hc] at hm
      simp only [pyMinKeyFst, Option.some.injEq] at hm
      rcases foldlKeyFst_char xs x with ⟨hR, hall⟩ | ⟨pre, post, heq, hlt, hpre, hpost⟩
      · refine ⟨[], xs, by rw [← hm, hR]; rfl, by simp, fun y hy => ?_⟩
        rw [← hm, hR]
        rcases List.mem_cons.mp hy with rfl | hy'
        · exact le_refl _
        · exact hall y hy'
      · rw [hm] at heq hlt hpre hpost
        refine ⟨x :: pre, post, by rw [List.cons_append, ← heq], ?_, ?_⟩
        · intro y hy
          rcases List.mem_cons.mp hy with rfl | hy'
          · exact hlt
          · exact hpre y hy'
        · intro y hy
          rcases List.mem_cons.mp hy with rfl | hy'
          · exact le_of_lt hlt
          · rw [heq] at hy'
            rcases List.mem_append.mp hy' with hy'' | hy''
            · exact le_of_lt (hpre y hy'')
            · rcases List.mem_cons.mp hy'' with rfl | hy'''
              · exact le_refl _
              · exact hpost y hy'''
  · intro idx t tol r hr
    unfold nearestBp at hr
    cases hc : distCands idx t tol with
    | nil => rw [hc] at hr; exact absurd hr (by simp [pyMinPair])
    | cons x xs =>
      rw [hc] at hr
      simp only [pyMinPair, Option.map_some'] at hr
      have hmemf := foldlMinPair_mem xs x
      have hnl := foldlMinPair_not_lt xs x
      generalize hM : xs.foldl (fun m y => if pairLt y m then y else m) x = m at hr hmemf hnl
      obtain ⟨md, mr⟩ := m
      have hrr : mr = r := Option.some.inj hr
      subst hrr
      refine ⟨md, ?_, ?_⟩
      · rcases hmemf with h | h
        · rw [h]; exact List.mem_cons_self x xs
        · exact List.mem_cons_of_mem x h
      · intro y hy
        rcases List.mem_cons.mp hy with rfl | hy'
        · exact hnl y (.inl rfl)
        · exact hnl y (.inr hy')

/-- Witness for C4's amended rules on the tie fixture: the keyed `min`
of `select_nd` would keep the first-encountered entry (wheel `b`),
while `_nearest_bp` picks a tuple-minimal candidate. -/
theorem tie_break_rules_witness :
    (pyMinKeyFst (distCands idxTie 451 2) = some (1, ("b", 1, "450nm-B"))
      ∧ ∃ pre post, distCands idxTie 451 2 = pre ++ (1, ("b", 1, "450nm-B")) :: post
          ∧ (∀ y ∈ pre, (1 : ℚ) < y.1)
          ∧ (∀ y ∈ distCands idxTie 451 2, (1 : ℚ) ≤ y.1))
    ∧ (nearestBp idxTie 451 2 = some ("a", 2, "452nm-A")
      ∧ ∃ d, (d, (("a", 2, "452nm-A") : Triple)) ∈ distCands idxTie 451 2
          ∧ ∀ y ∈ distCands idxTie 451 2, ¬ pairLt y (d, ("a", 2, "452nm-A"))) :=
  ⟨⟨by with_unfolding_all rfl,
    tie_break_rules.1 idxTie 451 2 (1, ("b", 1, "450nm-B")) (by with_unfolding_all rfl)⟩,
   ⟨by with_unfolding_all rfl,
    tie_break_rules.2 idxTie 451 2 ("a", 2, "452nm-A") (by with_unfolding_all rfl)⟩⟩

/-! ## C1 amended: only `ThorlabsError` is tolerated by the clearing pass -/

/-- The outcomes accepted by `except ThorlabsError` around a per-wheel
move: success, or a raised `ThorlabsError` (warned and swallowed). -/
def okOrThorlabs : Except PyErr Unit → Bool
  | .ok _ => true
  | .error .thorlabs => true
  | .error _ => false

/-- Per-wheel premise of the amended C1: the wheel's slot expression
(`tgt_slot if k == tgt_key else empty[k]`) does not raise, and the move
on it either succeeds or raises `ThorlabsError`. -/
def clearMoveOk (tk : String) (ts : ℕ) (em : List (String × ℕ)) (b : Bool)
    (dv : String → WheelDev) (p : String × FilterWheel) : Bool :=
  match clearTarget tk ts em p.1 with
  | .ok t => okOrThorlabs (moveTo p.2 (dv p.1) t b none).out
  | .error _ => false

theorem okOrThorlabs_eq {o : Except PyErr Unit} (h : okOrThorlabs o = true) :
    o = .ok () ∨ o = .error .thorlabs := by
  cases o with
  | ok u => cases u; exact .inl rfl
  | error e =>
    cases e with
    | thorlabs => exact .inr rfl
    | valueError => exact absurd h (by simp [okOrThorlabs])
    | keyError => exact absurd h (by simp [okOrThorlabs])
    | timeoutError => exact absurd h (by simp [okOrThorlabs])
    | indexError => exact absurd h (by simp [okOrThorlabs])

/-- `clearMoveOk` depends on the device map only through the wheel's
own entry. -/
theorem clearMoveOk_congr (tk : String) (ts : ℕ) (em : List (String × ℕ)) (b : Bool)
    (dv dv' : String → WheelDev) (p : String × FilterWheel)
    (h : dv p.1 = dv' p.1) :
    clearMoveOk tk ts em b dv p = clearMoveOk tk ts em b dv' p := by
  unfold clearMoveOk
  rw [h]

/-- A connected, fault-free wheel whose move is not rejected by the
range check completes the move: outcome `ok`, position set to the
target. -/
theorem moveTo_healthy (w : FilterWheel) (d : WheelDev) (t : ℤ) (b : Bool)
    (hconn : d.connected = true) (hf : d.fault = none)
    (hok : okOrThorlabs (moveTo w d t b none).out = true) :
    (moveTo w d t b none).out = .ok ()
    ∧ (moveTo w d t b none).dev = { d with pos := t.toNat } := by
  by_cases hr : t < 0 ∨ (w.slots : ℤ) < t
  · rw [show moveTo w d t b none = ⟨.error .valueError, d, []⟩ from by
      unfold moveTo; rw [if_pos hr]] at hok
    exact absurd hok (by simp [okOrThorlabs])
  · have hmv : moveTo w d t b none = ⟨.ok (), { d with pos := t.toNat }, [t]⟩ := by
      unfold moveTo
      rw [if_neg hr, if_neg (by rw [hconn]; simp), hf]
    rw [hmv]
    exact ⟨rfl, rfl⟩

/-- Amended clearing-pass guarantee: when every connected non-ND wheel
has a well-defined slot to go to and its move yields success or
`ThorlabsError`, the whole pass returns success; moreover every
connected, fault-free non-ND wheel ends at its planned slot, regardless
of `ThorlabsError`s on sibling wheels. -/
theorem clearPass_ok_of_thorlabs (tk : String) (ts : ℕ) (em : List (String × ℕ))
    (b : Bool) :
    ∀ (ws : List (String × FilterWheel)) (s : RackState),
      (ws.map Prod.fst).Nodup →
      (∀ p ∈ ws, (s.dev p.1).connected = true → p.2.wtype ≠ "nd" →
        clearMoveOk tk ts em b s.dev p = true) →
      (clearPass tk ts em b ws s).1 = .ok ()
      ∧ ∀ p ∈ ws, (s.dev p.1).connected = true → p.2.wtype ≠ "nd" →
          (s.dev p.1).fault = none →
          ∃ t, clearTarget tk ts em p.1 = .ok t
            ∧ ((clearPass tk ts em b ws s).2.dev p.1).pos = t.toNat := by
  intro ws
  induction ws with
  | nil =>
    intro s _ _
    rw [clearPass_nil]
    exact ⟨rfl, fun p hp => absurd hp (List.not_mem_nil p)⟩
  | cons q rest ih =>
    intro s hnd H
    obtain ⟨k, w⟩ := q
    rw [List.map_cons, List.nodup_cons] at hnd
    obtain ⟨hk, hnd'⟩ := hnd
    by_cases hc : ¬ (s.dev k).connected ∨ w.wtype = "nd"
    · rw [clearPass_cons_skip tk ts em b k w rest s hc]
      have hrest := ih s hnd' (fun p hp => H p (List.mem_cons_of_mem _ hp))
      refine ⟨hrest.1, fun p hp hconn hnotnd hfa => ?_⟩
      rcases List.mem_cons.mp hp with rfl | hp'
      · rcases hc with h | h
        · exact absurd hconn h
        · exact absurd h hnotnd
      · exact hrest.2 p hp' hconn hnotnd hfa
    · have hcw : (s.dev k).connected = true ∧ w.wtype ≠ "nd" := by
        rw [not_or] at hc
        exact ⟨by revert hc; cases (s.dev k).connected <;> simp, hc.2⟩
      have hH := H (k, w) (List.mem_cons_self _ _) hcw.1 hcw.2
      cases ht : clearTarget tk ts em k with
      | error e =>
        rw [clearMoveOk, ht] at hH
        exact absurd hH (by simp)
      | ok t =>
        rw [clearMoveOk, ht] at hH
        have hok : okOrThorlabs (moveTo w (s.dev k) t b none).out = true := hH
        have hout := okOrThorlabs_eq hok
        rw [clearPass_cons_continue tk ts em b k w rest s t hc ht hout]
        have hdev' : ∀ p : String × FilterWheel, p ∈ rest →
            setDev s.dev k (moveTo w (s.dev k) t b none).dev p.1 = s.dev p.1 := by
          intro p hp
          have hne : p.1 ≠ k := by
            intro hq
            apply hk
            rw [← hq]
            exact List.mem_map.mpr ⟨p, hp, rfl⟩
          unfold setDev
          rw [if_neg hne]
        have hrest := ih ⟨s.rack, setDev s.dev k (moveTo w (s.dev k) t b none).dev⟩ hnd'
          (fun p hp hconn hnotnd => by
            rw [clearMoveOk_congr tk ts em b _ s.dev p (hdev' p hp)]
            refine H p (List.mem_cons_of_mem _ hp) ?_ hnotnd
            rw [← hdev' p hp]
            exact hconn)
        refine ⟨hrest.1, fun p hp hconn hnotnd hfa => ?_⟩
        rcases List.mem_cons.mp hp with rfl | hp'
        · refine ⟨t, ht, ?_⟩
          show ((clearPass tk ts em b rest
              ⟨s.rack, setDev s.dev k (moveTo w (s.dev k) t b none).dev⟩).2.dev k).pos
            = t.toNat
          have hfin : (clearPass tk ts em b rest
              ⟨s.rack, setDev s.dev k (moveTo w (s.dev k) t b none).dev⟩).2.dev k
              = (moveTo w (s.dev k) t b none).dev := by
            rw [(clearPass_frame tk ts em b rest _).2.2 k hk]
            show setDev s.dev k (moveTo w (s.dev k) t b none).dev k
              = (moveTo w (s.dev k) t b none).dev
            unfold setDev
            rw [if_pos rfl]
          rw [hfin, (moveTo_healthy w (s.dev k) t b hconn hfa hok).2]
        · have hc2 : (setDev s.dev k (moveTo w (s.dev k) t b none).dev p.1).connected
              = true := by rw [hdev' p hp']; exact hconn
          have hf2 : (setDev s.dev k (moveTo w (s.dev k) t b none).dev p.1).fault
              = none := by rw [hdev' p hp']; exact hfa
          exact hrest.2 p hp' hc2 hnotnd hf2

/-- C1 amended, at the `select_bandpass` level: when a target filter is
matched and every connected band-pass wheel's planned move either
succeeds or raises only `ThorlabsError`, the call returns success and
every connected fault-free band-pass wheel — the target wheel and every
sibling being cleared — has reached its planned slot, even when some
other wheel raised a (caught, warned) `ThorlabsError`. -/
theorem select_bandpass_partial_failure (s : RackState) (wl tol : ℚ) (b : Bool)
    (tk : String) (ts : ℕ) (nm : String)
    (hm : nearestBp s.rack.wlIndex wl tol = some (tk, ts, nm))
    (hnd : (s.rack.wheels.map Prod.fst).Nodup)
    (H : ∀ p ∈ s.rack.wheels, (s.dev p.1).connected = true → p.2.wtype ≠ "nd" →
      clearMoveOk tk ts (firstEmptyMap s) b s.dev p = true) :
    (selectBandpass s wl tol b).1 = .ok ()
    ∧ ∀ p ∈ s.rack.wheels, (s.dev p.1).connected = true → p.2.wtype ≠ "nd" →
        (s.dev p.1).fault = none →
        ∃ t, clearTarget tk ts (firstEmptyMap s) p.1 = .ok t
          ∧ ((selectBandpass s wl tol b).2.dev p.1).pos = t.toNat := by
  unfold selectBandpass
  rw [hm]
  exact clearPass_ok_of_thorlabs tk ts (firstEmptyMap s) b s.rack.wheels s hnd H

/-- Device map for the C1-amended witness: wheel `c`'s device rejects
set commands (`ThorlabsError`), everything else healthy. -/
def devPF : String → WheelDev :=
  fun k => if k = "c" then ⟨true, 3, some .setFail⟩ else ⟨true, 3, none⟩

/-- Rack for the C1-amended witness: two connected band-pass wheels. -/
def rackPF : FilterRack :=
  ⟨[("a", wBpA), ("c", wBpC)], metaBp, [], ["a", "c"],
   [(450, ("a", 1, "450nm")), (500, ("c", 1, "500nm"))], []⟩

/-- The C1-amended witness state. -/
def stPF : RackState := ⟨rackPF, devPF⟩

/-- Witness for the amended C1: wheel `c` raises `ThorlabsError` during
the clearing pass, yet `select_bandpass(450)` returns success and the
healthy target wheel `a` sits at its planned slot 1. -/
theorem select_bandpass_partial_failure_witness :
    (nearestBp stPF.rack.wlIndex 450 2 = some ("a", 1, "450nm")
      ∧ (stPF.rack.wheels.map Prod.fst).Nodup
      ∧ (∀ p ∈ stPF.rack.wheels, (stPF.dev p.1).connected = true → p.2.wtype ≠ "nd" →
          clearMoveOk "a" 1 (firstEmptyMap stPF) true stPF.dev p = true))
    ∧ (selectBandpass stPF 450 2 true).1 = .ok ()
    ∧ ((selectBandpass stPF 450 2 true).2.dev "a").pos = 1 :=
  ⟨⟨by with_unfolding_all rfl, by decide, by decide⟩,
   (select_bandpass_partial_failure stPF 450 2 true "a" 1 "450nm"
      (by with_unfolding_all rfl) (by decide) (by decide)).1,
   by with_unfolding_all rfl⟩

/-! ## Snapshot lemmas for `available_filters` (C3 amended) -/

theorem dictGet?_cons_self {α β : Type} [DecidableEq α] (k : α) (v : β)
    (d : List (α × β)) : dictGet? ((k, v) :: d) k = some v := by
  simp [dictGet?]

theorem dictGet?_cons_ne {α β : Type} [DecidableEq α] (k k' : α) (v : β)
    (d : List (α × β)) (h : k' ≠ k) :
    dictGet? ((k, v) :: d) k' = dictGet? d k' := by
  have : ¬ (k = k') := fun he => h he.symm
  simp [dictGet?, this]

theorem mem_offlineOf {d0 : String → WheelDev} {ws : List (String × FilterWheel)}
    {k : String} (h : k ∈ offlineOf d0 ws) : k ∈ ws.map Prod.fst := by
  unfold offlineOf at h
  obtain ⟨p, hp, hf⟩ := List.mem_filterMap.mp h
  refine List.mem_map.mpr ⟨p, hp, ?_⟩
  by_cases hc : ¬ (d0 p.1).connected
  · rw [if_pos hc] at hf
    exact Option.some.inj hf
  · rw [if_neg hc] at hf
    exact absurd hf (by simp)

theorem offlineOf_cons (d0 : String → WheelDev) (k : String) (w : FilterWheel)
    (rest : List (String × FilterWheel)) :
    offlineOf d0 ((k, w) :: rest)
      = (if (d0 k).connected then [] else [k]) ++ offlineOf d0 rest := by
  unfold offlineOf
  rw [List.filterMap_cons]
  by_cases h : (d0 k).connected
  · simp [h]
  · simp [h]

theorem onlineOf_cons (d0 : String → WheelDev) (k : String) (w : FilterWheel)
    (rest : List (String × FilterWheel)) (hk : k ∉ rest.map Prod.fst) :
    onlineOf d0 ((k, w) :: rest)
      = (if (d0 k).connected then [k] else []) ++ onlineOf d0 rest := by
  have hknotoff : k ∉ offlineOf d0 rest := fun hmem => hk (mem_offlineOf hmem)
  unfold onlineOf
  rw [List.map_cons, List.filter_cons]
  have hhead : (!((offlineOf d0 ((k, w) :: rest)).contains k)) = (d0 k).connected := by
    rw [offlineOf_cons]
    by_cases h : (d0 k).connected
    · simp [h, hknotoff]
    · simp [h]
  have htail : (rest.map Prod.fst).filter
        (fun x => !((offlineOf d0 ((k, w) :: rest)).contains x))
      = onlineOf d0 rest := by
    unfold onlineOf
    refine List.filter_congr ?_
    intro x hx
    have hxk : x ≠ k := fun he => hk (by rw [← he]; exact hx)
    rw [offlineOf_cons]
    by_cases h : (d0 k).connected
    · simp [h]
    · simp [h, hxk]
  rw [hhead, htail]
  by_cases h : (d0 k).connected
  · rw [if_pos h, if_pos h]; rfl
  · rw [if_neg h, if_neg h]; rfl

theorem mem_onlineOf {d0 : String → WheelDev} {ws : List (String × FilterWheel)}
    {x : String} (h : x ∈ onlineOf d0 ws) : x ∈ ws.map Prod.fst := by
  unfold onlineOf at h
  exact List.mem_of_mem_filter h

/-- The `available_filters` scan over the construction-time `online`
list (with dict lookups) computes the same dictionary as a direct scan
over the wheels filtered by their construction-time connectivity. -/
theorem online_scan_eq (d0 : String → WheelDev) :
    ∀ (ws : List (String × FilterWheel)), (ws.map Prod.fst).Nodup →
    ∀ (acc : List (String × String × ℕ)),
      (onlineOf d0 ws).foldl (fun out k =>
        match dictGet? ws k with
        | none => out
        | some w => wheelCollect k w out) acc
      = ws.foldl (fun out p =>
          if (d0 p.1).connected then wheelCollect p.1 p.2 out else out) acc := by
  intro ws
  induction ws with
  | nil => intro _ acc; rfl
  | cons q rest ih =>
    intro hnd acc
    obtain ⟨k, w⟩ := q
    rw [List.map_cons, List.nodup_cons] at hnd
    obtain ⟨hk, hnd'⟩ := hnd
    have hfun : ∀ (acc' : List (String × String × ℕ)),
        (onlineOf d0 rest).foldl (fun out x =>
          match dictGet? ((k, w) :: rest) x with
          | none => out
          | some w' => wheelCollect x w' out) acc'
        = rest.foldl (fun out p =>
            if (d0 p.1).connected then wheelCollect p.1 p.2 out else out) acc' := by
      intro acc'
      refine (List.foldl_ext _ _ acc' (fun out x hx => ?_)).trans (ih hnd' acc')
      have hxk : x ≠ k := fun he => hk (by rw [← he]; exact mem_onlineOf hx)
      rw [dictGet?_cons_ne k x w rest hxk]
    rw [onlineOf_cons d0 k w rest hk, List.foldl_append, List.foldl_cons]
    by_cases h : (d0 k).connected
    · rw [if_pos h, if_pos h, List.foldl_cons, List.foldl_nil, dictGet?_cons_self]
      exact hfun _
    · rw [if_neg h, if_neg h, List.foldl_nil]
      exact hfun acc

/-! ## C3 amended: `available_filters` reflects the construction snapshot -/

/-- C3 amended: for a rack built by `__init__` from device state `d0`,
`available_filters` evaluated under **any** later device state `d`
returns exactly what the live per-wheel scan would have returned at
construction time (`d0`): the name → (wheel, slot) map of every
non-`EMPTY` slot of every wheel online *then*.  In particular the
result is independent of the current connectivity `d`. -/
theorem available_filters_construction_snapshot
    (ws : List (String × FilterWheel)) (meta : List (String × FilterMeta))
    (d0 d : String → WheelDev) (rack : FilterRack)
    (h : mkFilterRack? ws meta d0 = .ok rack)
    (hnd : (ws.map Prod.fst).Nodup) :
    availableFilters ⟨rack, d⟩ = availableFiltersLive ⟨rack, d0⟩ := by
  obtain ⟨hw, ho⟩ : rack.wheels = ws ∧ rack.online = onlineOf d0 ws := by
    unfold mkFilterRack? at h
    cases hb : buildIndices meta d0 ws {} with
    | ok idx =>
      rw [hb] at h
      injection h with h2
      rw [← h2]
      exact ⟨rfl, rfl⟩
    | error e =>
      rw [hb] at h
      exact absurd h (by simp)
  show rack.online.foldl _ [] = rack.wheels.foldl _ []
  rw [hw, ho]
  exact online_scan_eq d0 ws hnd []

/-- Witness for the amended C3: the rack built while its only wheel was
offline; under the reconnected device map `devOn`, `available_filters`
still returns the construction-time (empty) result. -/
theorem available_filters_construction_snapshot_witness :
    (mkFilterRack? [("a", wSolo)] [] devOff = .ok rackOffline
      ∧ ([("a", wSolo)].map Prod.fst).Nodup)
    ∧ availableFilters ⟨rackOffline, devOn⟩ = availableFiltersLive ⟨rackOffline, devOff⟩ :=
  ⟨⟨by with_unfolding_all rfl, by decide⟩,
   available_filters_construction_snapshot [("a", wSolo)] [] devOff devOn rackOffline
     (by with_unfolding_all rfl) (by decide)⟩

/-! ## Idempotence of `select_bandpass` (C8) -/

theorem setDev_same (dv : String → WheelDev) (k : String) (v : WheelDev)
    (h : dv k = v) : setDev dv k v = dv := by
  funext k'
  unfold setDev
  by_cases hk : k' = k
  · rw [if_pos hk, hk, h]
  · rw [if_neg hk]

theorem setDev_self (dv : String → WheelDev) (k : String) (v : WheelDev) :
    setDev dv k v k = v := by
  unfold setDev
  rw [if_pos rfl]

/-- Repeating a `move_to` from the state it produced gives the same
outcome and the same device state: the command is absolute. -/
theorem moveTo_idem (w : FilterWheel) (d : WheelDev) (slot : ℤ) (b : Bool) :
    moveTo w ((moveTo w d slot b none).dev) slot b none = moveTo w d slot b none := by
  by_cases h1 : slot < 0 ∨ (w.slots : ℤ) < slot
  · simp [moveTo, h1]
  · by_cases h2 : d.connected
    · cases hf : d.fault with
      | none => cases b <;> simp [moveTo, h1, h2, hf]
      | some f => cases f <;> cases b <;> simp [moveTo, h1, h2, hf]
    · simp [moveTo, h1, h2]

theorem selectBandpass_none (s : RackState) (wl tol : ℚ) (b : Bool)
    (hm : nearestBp s.rack.wlIndex wl tol = none) :
    selectBandpass s wl tol b = (.error .keyError, s) := by
  unfold selectBandpass
  rw [hm]

theorem selectBandpass_some (s : RackState) (wl tol : ℚ) (b : Bool)
    (tk : String) (ts : ℕ) (nm : String)
    (hm : nearestBp s.rack.wlIndex wl tol = some (tk, ts, nm)) :
    selectBandpass s wl tol b
      = clearPass tk ts (firstEmptyMap s) b s.rack.wheels s := by
  unfold selectBandpass
  rw [hm]

/-- `firstEmptyMap` depends only on the rack's static part and each
wheel's connectivity. -/
theorem firstEmptyMap_congr (s s' : RackState) (hr : s'.rack = s.rack)
    (hc : ∀ k, (s'.dev k).connected = (s.dev k).connected) :
    firstEmptyMap s' = firstEmptyMap s := by
  unfold firstEmptyMap
  rw [hr]
  exact List.foldl_ext _ _ [] (fun acc p _ => by rw [hc p.1])

/-- Re-running the head wheel's step from any state that already holds
the device state its move produced: the move repeats identically and
the state does not change (continue case). -/
theorem clearPass_cons_continue_rerun (tk : String) (ts : ℕ) (em : List (String × ℕ))
    (b : Bool) (k : String) (w : FilterWheel) (rest : List (String × FilterWheel))
    (s s' : RackState) (t : ℤ)
    (hc : ¬ (¬ (s.dev k).connected ∨ w.wtype = "nd"))
    (ht : clearTarget tk ts em k = .ok t)
    (hout : (moveTo w (s.dev k) t b none).out = .ok ()
      ∨ (moveTo w (s.dev k) t b none).out = .error .thorlabs)
    (hdk : s'.dev k = (moveTo w (s.dev k) t b none).dev) :
    clearPass tk ts em b ((k, w) :: rest) s' = clearPass tk ts em b rest s' := by
  have hmv : moveTo w (s'.dev k) t b none = moveTo w (s.dev k) t b none := by
    rw [hdk, moveTo_idem]
  have hcc : (s'.dev k).connected = (s.dev k).connected := by
    rw [hdk, (moveTo_frame w (s.dev k) t b none).1]
  have hc2 : ¬ (¬ (s'.dev k).connected ∨ w.wtype = "nd") := by
    rw [hcc]; exact hc
  rw [clearPass_cons_continue tk ts em b k w rest s' t hc2 ht (by rw [hmv]; exact hout)]
  rw [hmv, setDev_same _ _ _ hdk]

/-- As `clearPass_cons_continue_rerun`, for the aborting case. -/
theorem clearPass_cons_abort_rerun (tk : String) (ts : ℕ) (em : List (String × ℕ))
    (b : Bool) (k : String) (w : FilterWheel) (rest : List (String × FilterWheel))
    (s s' : RackState) (t : ℤ) (e : PyErr)
    (hc : ¬ (¬ (s.dev k).connected ∨ w.wtype = "nd"))
    (ht : clearTarget tk ts em k = .ok t)
    (hout : (moveTo w (s.dev k) t b none).out = .error e)
    (hne : e ≠ .thorlabs)
    (hdk : s'.dev k = (moveTo w (s.dev k) t b none).dev) :
    clearPass tk ts em b ((k, w) :: rest) s' = (.error e, s') := by
  have hmv : moveTo w (s'.dev k) t b none = moveTo w (s.dev k) t b none := by
    rw [hdk, moveTo_idem]
  have hcc : (s'.dev k).connected = (s.dev k).connected := by
    rw [hdk, (moveTo_frame w (s.dev k) t b none).1]
  have hc2 : ¬ (¬ (s'.dev k).connected ∨ w.wtype = "nd") := by
    rw [hcc]; exact hc
  rw [clearPass_cons_abort tk ts em b k w rest s' t e hc2 ht (by rw [hmv]; exact hout) hne]
  rw [hmv, setDev_same _ _ _ hdk]

/-- Re-running the clearing pass from the state it produced leaves
both the outcome and the state unchanged: every move commands an
absolute slot determined by the static configuration, and
connectivity/faults are untouched by the first run. -/
theorem clearPass_idem (tk : String) (ts : ℕ) (em : List (String × ℕ)) (b : Bool) :
    ∀ (ws : List (String × FilterWheel)), (ws.map Prod.fst).Nodup →
    ∀ (s : RackState),
      clearPass tk ts em b ws (clearPass tk ts em b ws s).2
        = clearPass tk ts em b ws s := by
  intro ws
  induction ws with
  | nil => intro _ s; rw [clearPass_nil, clearPass_nil]
  | cons q rest ih =>
    intro hnd s
    obtain ⟨k, w⟩ := q
    rw [List.map_cons, List.nodup_cons] at hnd
    obtain ⟨hk, hnd'⟩ := hnd
    by_cases hc : ¬ (s.dev k).connected ∨ w.wtype = "nd"
    · rw [clearPass_cons_skip tk ts em b k w rest s hc]
      have hcon := ((clearPass_frame tk ts em b rest s).2.1 k).1
      have hc2 : ¬ ((clearPass tk ts em b rest s).2.dev k).connected ∨ w.wtype = "nd" := by
        rcases hc with h | h
        · left; rw [hcon]; exact h
        · right; exact h
      rw [clearPass_cons_skip tk ts em b k w rest _ hc2]
      exact ih hnd' s
    · cases ht : clearTarget tk ts em k with
      | error e =>
        rw [clearPass_cons_keyerr tk ts em b k w rest s e hc ht]
        rw [clearPass_cons_keyerr tk ts em b k w rest s e hc ht]
      | ok t =>
        cases hout : (moveTo w (s.dev k) t b none).out with
        | ok u =>
          cases u
          rw [clearPass_cons_continue tk ts em b k w rest s t hc ht (.inl hout)]
          rw [clearPass_cons_continue_rerun tk ts em b k w rest s _ t hc ht (.inl hout)
            (((clearPass_frame tk ts em b rest _).2.2 k hk).trans
              (setDev_self s.dev k (moveTo w (s.dev k) t b none).dev))]
          exact ih hnd' _
        | error e =>
          by_cases he : e = .thorlabs
          · subst he
            rw [clearPass_cons_continue tk ts em b k w rest s t hc ht (.inr hout)]
            rw [clearPass_cons_continue_rerun tk ts em b k w rest s _ t hc ht (.inr hout)
              (((clearPass_frame tk ts em b rest _).2.2 k hk).trans
                (setDev_self s.dev k (moveTo w (s.dev k) t b none).dev))]
            exact ih hnd' _
          · rw [clearPass_cons_abort tk ts em b k w rest s t e hc ht hout he]
            exact clearPass_cons_abort_rerun tk ts em b k w rest s _ t e hc ht hout he
              (setDev_self s.dev k (moveTo w (s.dev k) t b none).dev)

/-! ## C8: `select_bandpass` is idempotent on the rack state -/

/-- C8: running `select_bandpass` twice with the same arguments (no
intervening operations) leaves exactly the state the first call
produced — every wheel's slot position after the second call equals its
position after the first, and the rack's static part never changes. -/
theorem select_bandpass_idempotent (s : RackState) (wl tol : ℚ) (b : Bool)
    (hnd : (s.rack.wheels.map Prod.fst).Nodup) :
    (selectBandpass (selectBandpass s wl tol b).2 wl tol b).2
      = (selectBandpass s wl tol b).2 := by
  cases hm : nearestBp s.rack.wlIndex wl tol with
  | none =>
    rw [selectBandpass_none s wl tol b hm]
    show (selectBandpass s wl tol b).2 = s
    rw [selectBandpass_none s wl tol b hm]
  | some tr =>
    obtain ⟨tk, ts, nm⟩ := tr
    rw [selectBandpass_some s wl tol b tk ts nm hm]
    have hrack := (clearPass_frame tk ts (firstEmptyMap s) b s.rack.wheels s).1
    have hconn := (clearPass_frame tk ts (firstEmptyMap s) b s.rack.wheels s).2.1
    have hm1 : nearestBp
        (clearPass tk ts (firstEmptyMap s) b s.rack.wheels s).2.rack.wlIndex wl tol
        = some (tk, ts, nm) := by
      rw [hrack]; exact hm
    rw [selectBandpass_some _ wl tol b tk ts nm hm1]
    have hem : firstEmptyMap (clearPass tk ts (firstEmptyMap s) b s.rack.wheels s).2
        = firstEmptyMap s :=
      firstEmptyMap_congr s _ hrack (fun k => (hconn k).1)
    rw [hem, hrack]
    exact congrArg Prod.snd
      (clearPass_idem tk ts (firstEmptyMap s) b s.rack.wheels hnd s)

/-- Rack fixture for the C8 witness: one connected band-pass wheel. -/
def rackW : FilterRack := ⟨[("a", wBpA)], metaBp, [], ["a"], [(450, ("a", 1, "450nm"))], []⟩

/-- The C8 witness state. -/
def stW : RackState := ⟨rackW, devOn⟩

/-- Witness for C8 on a concrete state. -/
theorem select_bandpass_idempotent_witness :
    (stW.rack.wheels.map Prod.fst).Nodup
    ∧ (selectBandpass (selectBandpass stW 450 2 true).2 450 2 true).2
        = (selectBandpass stW 450 2 true).2 :=
  ⟨by decide, select_bandpass_idempotent stW 450 2 true (by decide)⟩
